import Mathlib

/-!
Verification of the Boneh-Franklin IBE implementation (SRI prism, `bfibe`).

The C sources under `src/bfibe/src` are shallowly embedded here:

* bytes are `Nat` (each byte produced by the code is < 256; `Nat.xor` agrees
  with byte-wise xor on such values),
* byte buffers are `List Nat`,
* text is `List Char` (one list per line of a line-oriented file),
* the external dependencies (the PBC pairing library, OpenSSL's SHA family,
  GMP's integer-string conversions and libc's printf/scanf) are abstracted as
  a `Provider` record of functions and a `ShaFns` record; their documented
  contracts (digest lengths, serialization round-trips, bilinearity of the
  pairing) appear as explicit hypotheses of the theorems that need them,
* fallible C functions returning `bool`/`NULL` become `Option`/`Bool`.

Every definition follows the corresponding C function statement by statement;
the C file and function are named in each doc comment.
-/

/-! ### Byte-buffer primitives -/

/-- `memcpy(buf + off, src, src.length)` on a byte buffer: replace the bytes
of `buf` at positions `[off, off + src.length)` by `src`. -/
def writeBytes (buf : List Nat) (off : Nat) (src : List Nat) : List Nat :=
  buf.take off ++ src ++ buf.drop (off + src.length)

/-- `mpz_import(a, k, 1, 1, 0, 0, h)`: read a byte list as a big-endian
natural number. -/
def beInt : List Nat → Nat
  | [] => 0
  | b :: bs => b * 256 ^ bs.length + beInt bs

/-- Serialize a natural into `k` bytes, least significant byte first
(the host byte order of the reference platform, used by the
`memcpy(writeptr, &msg->length, sizeof(size_t))` in export.c). -/
def natToLE : Nat → Nat → List Nat
  | 0, _ => []
  | k + 1, n => n % 256 :: natToLE k (n / 256)

/-- Read back a little-endian byte list as a natural number. -/
def leToNat : List Nat → Nat
  | [] => 0
  | b :: bs => b + 256 * leToNat bs

/-! ### Security profiles (`src/security.c`) -/

/-- The five OpenSSL digest functions the engine can select
(external dependency; abstract byte functions). -/
structure ShaFns where
  sha1 : List Nat → List Nat
  sha224 : List Nat → List Nat
  sha256 : List Nat → List Nat
  sha384 : List Nat → List Nat
  sha512 : List Nat → List Nat

/-- `BFSecurityLevel` from `include/bfibe.h`. -/
structure BFSecurityLevel where
  level : Nat
  n_p : Nat
  n_q : Nat
  hashlen : Nat
  hashfcn : List Nat → List Nat

/-- `setup_security` from `src/security.c`: the fixed table mapping a level
in 1..5 to modulus widths and hash function; `none` models `return false`. -/
def setup_security (shas : ShaFns) (level : Nat) : Option BFSecurityLevel :=
  if level = 1 then
    some { level := level, n_p := 512, n_q := 160, hashlen := 20, hashfcn := shas.sha1 }
  else if level = 2 then
    some { level := level, n_p := 1024, n_q := 224, hashlen := 28, hashfcn := shas.sha224 }
  else if level = 3 then
    some { level := level, n_p := 1536, n_q := 256, hashlen := 32, hashfcn := shas.sha256 }
  else if level = 4 then
    some { level := level, n_p := 3840, n_q := 384, hashlen := 48, hashfcn := shas.sha384 }
  else if level = 5 then
    some { level := level, n_p := 7680, n_q := 512, hashlen := 64, hashfcn := shas.sha512 }
  else none

/-- A `BFSecurityLevel` as left by `calloc` when `setup_security` rejects the
level inside `bf_params_from_file` (which ignores the return value):
only `level` is set, the remaining fields are the zeroed allocation. -/
def junkSecurity (level : Nat) : BFSecurityLevel :=
  { level := level, n_p := 0, n_q := 0, hashlen := 0, hashfcn := fun _ => [] }

/-! ### The external capability surface (PBC + GMP + libc)

`G1`, `G2`, `GT` are the pairing groups; every field is one external function
used by the engine. `P_pub_precomp` data (a `pairing_pp_t`) is a derived view
of the `G1` point it was built from, so it is tracked as that point and
`pairing_pp_apply` becomes `ppApply` applied to it. -/

structure Provider (G1 G2 GT : Type) where
  /-- `element_add` on G1. -/
  g1add : G1 → G1 → G1
  /-- `element_mul_mpz` on G1 (scalar multiplication). -/
  g1mul : G1 → Nat → G1
  /-- `element_add` on G2. -/
  g2add : G2 → G2 → G2
  /-- `element_mul_mpz` on G2. -/
  g2mul : G2 → Nat → G2
  /-- `element_cmp(x, y) == 0`. -/
  g1eqb : G1 → G1 → Bool
  /-- `element_pairing`. -/
  pair : G1 → G2 → GT
  /-- `pairing_pp_apply` where the precomputation was built from the first
  argument. -/
  ppApply : G1 → G2 → GT
  /-- `element_pow_mpz` on GT. -/
  gtpow : GT → Nat → GT
  /-- `element_to_bytes` on GT (its length is `element_length_in_bytes`). -/
  gtToBytes : GT → List Nat
  /-- `element_to_bytes` on G1. -/
  g1ToBytes : G1 → List Nat
  /-- `element_from_bytes` on G1. -/
  g1FromBytes : List Nat → G1
  /-- `element_length_in_bytes` for G1 (fixed width per curve). -/
  g1len : Nat
  /-- `element_from_hash` into G2. -/
  fromHash : List Nat → G2
  /-- `element_snprint`/`%B` for a G1 element. -/
  g1ToStr : G1 → List Char
  /-- `element_set_str(·, s, 10)` for G1; `none` models a zero return. -/
  g1FromStr : List Char → Option G1
  /-- `element_snprint` for a G2 element. -/
  g2ToStr : G2 → List Char
  /-- `element_set_str(·, s, 10)` for G2. -/
  g2FromStr : List Char → Option G2
  /-- the value `element_init_G2` leaves in a fresh element (what a caller
  sees when it ignores an `element_set_str` failure). -/
  g2init : G2
  /-- `printf("%u")` for the security level header. -/
  natEnc10 : Nat → List Char
  /-- `fscanf("%" SCNu8)`. -/
  natDec10 : List Char → Option Nat
  /-- `mpz_get_str(NULL, 36, ·)`. -/
  natEnc36 : Nat → List Char
  /-- `mpz_inp_str(·, ·, 36)`; `none` models a zero return. -/
  natDec36 : List Char → Option Nat
  /-- `pbc_param_init_set_str` succeeds on this descriptor text. -/
  curveOk : List (List Char) → Bool

/-! ### Data model (`include/bfibe.h`) -/

/-- `BFPublicParameters`. The opaque `pbc_par` curve descriptor is carried as
its textual form (`pbc_param_out_str` output lines); `P_pub_precomp` is the
G1 point the pairing precomputation was last built from. -/
structure BFPublicParameters (G1 : Type) where
  security : BFSecurityLevel
  curve : List (List Char)
  q : Nat
  P : G1
  P_pub : G1
  P_pub_precomp : G1

/-- `BFMessage`: a ciphertext record. -/
structure BFMessage (G1 : Type) where
  length : Nat
  U : G1
  V : List Nat
  W : List Nat
deriving DecidableEq

/-! ### Hash primitives (`src/hash.c`) -/

/-- `hash_to_point` from `src/hash.c`: digest the input, feed the digest to
`element_from_hash`. -/
def hash_to_point {G1 G2 GT : Type} (pp : Provider G1 G2 GT)
    (sec : BFSecurityLevel) (input : List Nat) : G2 :=
  pp.fromHash (sec.hashfcn input)

/-- The `for (i = 0; i < 2; i++)` loop of `hash_to_range`: each round hashes
`h ∥ input` (reading `hlen` bytes of the `h` buffer), reimports the digest as
a big-endian integer `a` and updates `v := v * 256^hlen + a`. -/
def htr_loop (H : List Nat → List Nat) (hlen : Nat) (bytes : List Nat) :
    Nat → List Nat → Nat → Nat
  | 0, _, v => v
  | i + 1, h, v =>
    let h2 := H (h.take hlen ++ bytes)
    htr_loop H hlen bytes i h2 (v * 256 ^ hlen + beInt (h2.take hlen))

/-- `hash_to_range` from `src/hash.c` (two accumulator rounds, then
`mpz_mod` by `q`). -/
def hash_to_range (sec : BFSecurityLevel) (bytes : List Nat) (q : Nat) : Nat :=
  htr_loop sec.hashfcn sec.hashlen bytes 2 (List.replicate sec.hashlen 0) 0 % q

/-- The `while (remaining)` loop of `hash_to_bytes`, recursing on fuel
(`outlen` steps always suffice because each round either finishes or consumes
`hlen ≥ 1` bytes of `remaining`).  Each round updates `h ← H(h)`,
`r ← H(h ∥ K)`; a full block (`remaining > hlen`) is copied to
`result + copied`, while the final block is copied to `result` -- offset 0,
exactly as the `memcpy(result, r, remaining)` in the C does. -/
def htb_loop (H : List Nat → List Nat) (hlen : Nat) (K : List Nat) :
    Nat → Nat → Nat → List Nat → List Nat → List Nat
  | 0, _, _, _, result => result
  | _ + 1, 0, _, _, result => result
  | fuel + 1, remaining, copied, h, result =>
    let h2 := H (h.take hlen)
    let r := H (h2.take hlen ++ K.take hlen)
    if hlen < remaining then
      htb_loop H hlen K fuel (remaining - hlen) (copied + hlen) h2
        (writeBytes result copied (r.take hlen))
    else
      htb_loop H hlen K fuel 0 (copied + remaining) h2
        (writeBytes result 0 (r.take remaining))

/-- `hash_to_bytes` from `src/hash.c`.  `result` is the caller's output
buffer (its prior contents matter: bytes the loop never writes keep them),
`outlen` the requested byte count, `seed` the seed bytes. -/
def hash_to_bytes (sec : BFSecurityLevel) (result : List Nat) (outlen : Nat)
    (seed : List Nat) : List Nat :=
  let K := sec.hashfcn seed
  htb_loop sec.hashfcn sec.hashlen K outlen outlen 0
    (List.replicate sec.hashlen 0) result

/-! ### The IBE engine (`src/bfibe.c`) -/

/-- `bf_generate_public_key`. -/
def bf_generate_public_key {G1 G2 GT : Type} (pp : Provider G1 G2 GT)
    (params : BFPublicParameters G1) (identifier : List Nat) : G2 :=
  hash_to_point pp params.security identifier

/-- `bf_generate_private_key`: `[s]·hash_to_point(id)`. -/
def bf_generate_private_key {G1 G2 GT : Type} (pp : Provider G1 G2 GT)
    (params : BFPublicParameters G1) (s : Nat) (identifier : List Nat) : G2 :=
  pp.g2mul (hash_to_point pp params.security identifier) s

/-- `bf_encrypt` from `src/bfibe.c`, on the success path of `RAND_bytes`:
`rho` is the drawn `hlen`-byte random string.  `W` is built in a `calloc`ed
(all-zero) buffer of `m.length` bytes, first filled by `hash_to_bytes` and
then xored with the plaintext. -/
def bf_encrypt {G1 G2 GT : Type} (pp : Provider G1 G2 GT)
    (params : BFPublicParameters G1) (public_key : G2)
    (m : List Nat) (rho : List Nat) : BFMessage G1 :=
  let len := m.length
  let hlen := params.security.hashlen
  let t := params.security.hashfcn m
  let rho_t := rho.take hlen ++ t.take hlen
  let l := hash_to_range params.security rho_t params.q
  let U := pp.g1mul params.P l
  let theta := pp.gtpow (pp.ppApply params.P_pub_precomp public_key) l
  let z := pp.gtToBytes theta
  let V := List.zipWith Nat.xor (params.security.hashfcn z) rho
  let W0 := hash_to_bytes params.security (List.replicate len 0) len rho
  let W := List.zipWith Nat.xor W0 m
  { length := len, U := U, V := V, W := W }

/-- `bf_decrypt` from `src/bfibe.c`.  `output0` is the caller-supplied output
buffer (`bf_decrypt` itself never clears it before use; `decrypt_ibe` passes
a `calloc`ed all-zero buffer).  Returns the C `retval` and the final contents
of the output buffer: the recovered plaintext on success, `message.length`
zero bytes after the `memset` on validation failure. -/
def bf_decrypt {G1 G2 GT : Type} (pp : Provider G1 G2 GT)
    (params : BFPublicParameters G1) (private_key : G2)
    (message : BFMessage G1) (output0 : List Nat) : Bool × List Nat :=
  let hlen := params.security.hashlen
  let theta := pp.pair message.U private_key
  let z := pp.gtToBytes theta
  let w := List.zipWith Nat.xor (params.security.hashfcn z) message.V
  let out1 := hash_to_bytes params.security output0 message.length w
  let output := List.zipWith Nat.xor out1 message.W
  let t := params.security.hashfcn output
  let rho_t := w.take hlen ++ t.take hlen
  let l := hash_to_range params.security rho_t params.q
  let lP := pp.g1mul params.P l
  if pp.g1eqb message.U lP then (true, output)
  else (false, List.replicate message.length 0)

/-! ### Serialization (`src/export.c`) -/

/-- `sizeof(size_t)` on the reference platform (64-bit host). -/
def size_size : Nat := 8

/-- `bf_message_to_bytes` from `src/export.c`: the plaintext length in host
byte order and width, one security-level byte, the fixed-width `U`
serialization, `hashlen` bytes of `V` and `length` bytes of `W`. -/
def bf_message_to_bytes {G1 G2 GT : Type} (pp : Provider G1 G2 GT)
    (params : BFPublicParameters G1) (msg : BFMessage G1) : List Nat :=
  natToLE size_size msg.length
    ++ params.security.level :: pp.g1ToBytes msg.U
    ++ msg.V.take params.security.hashlen
    ++ msg.W.take msg.length

/-- `bf_message_from_bytes` from `src/export.c`: read the length word, check
the security-level byte against `params` (the only check), then copy the
`U` bytes, `hashlen` bytes of `V` and `length` bytes of `W`. -/
def bf_message_from_bytes {G1 G2 GT : Type} (pp : Provider G1 G2 GT)
    (params : BFPublicParameters G1) (b : List Nat) : Option (BFMessage G1) :=
  let length := leToNat (b.take size_size)
  let b1 := b.drop size_size
  let level := b1.headD 0
  if level = params.security.level then
    let b2 := b1.drop 1
    let U := pp.g1FromBytes (b2.take pp.g1len)
    let b3 := b2.drop pp.g1len
    let V := b3.take params.security.hashlen
    let b4 := b3.drop params.security.hashlen
    let W := b4.take length
    some { length := length, U := U, V := V, W := W }
  else none

/-- The literal matched by `fprintf(out, "security %" PRIu8 ...)` and
`fscanf(in, "security %" SCNu8 ...)`. -/
def secHeader : List Char := "security ".data

/-- `bf_params_to_file` from `src/export.c`, with the stream modeled as its
list of lines: the security header, `P` and `P_pub` in provider decimal form,
`q` in base 36, then the curve descriptor text to EOF. -/
def bf_params_to_file {G1 G2 GT : Type} (pp : Provider G1 G2 GT)
    (params : BFPublicParameters G1) : List (List Char) :=
  (secHeader ++ pp.natEnc10 params.security.level)
    :: pp.g1ToStr params.P
    :: pp.g1ToStr params.P_pub
    :: pp.natEnc36 params.q
    :: params.curve

/-- `bf_params_from_file` from `src/export.c` on the same line model: scan
the header (rebuilding the security record with `setup_security`, whose
return value the C ignores), read the two element lines and the `q` token,
take the remaining input as the curve descriptor (failing, as the
`fread`/`pbc_param_init_set_str` sequence does, when it is empty or does not
parse), and finally decode `P` and `P_pub`. -/
def bf_params_from_file {G1 G2 GT : Type} (pp : Provider G1 G2 GT)
    (shas : ShaFns) (lines : List (List Char)) :
    Option (BFPublicParameters G1) :=
  match lines with
  | l0 :: l1 :: l2 :: l3 :: rest =>
    if l0.take 9 = secHeader then
      match pp.natDec10 (l0.drop 9) with
      | some level =>
        let security := (setup_security shas level).getD (junkSecurity level)
        match pp.natDec36 l3 with
        | some q =>
          if rest ≠ [] ∧ pp.curveOk rest = true then
            match pp.g1FromStr l1, pp.g1FromStr l2 with
            | some P, some Ppub =>
              some { security := security, curve := rest, q := q,
                     P := P, P_pub := Ppub, P_pub_precomp := Ppub }
            | _, _ => none
          else none
        | none => none
      | none => none
    else none
  | _ => none

/-- `bf_params_to_string` (an `open_memstream` wrapper of
`bf_params_to_file`). -/
def bf_params_to_string {G1 G2 GT : Type} (pp : Provider G1 G2 GT)
    (params : BFPublicParameters G1) : List (List Char) :=
  bf_params_to_file pp params

/-- `bf_params_from_string` (an `fmemopen` wrapper of
`bf_params_from_file`). -/
def bf_params_from_string {G1 G2 GT : Type} (pp : Provider G1 G2 GT)
    (shas : ShaFns) (lines : List (List Char)) :
    Option (BFPublicParameters G1) :=
  bf_params_from_file pp shas lines

/-! ### Facade (`src/api.c`) -/

/-- `format_system_params` from `src/api.c`. -/
def format_system_params {G1 G2 GT : Type} (pp : Provider G1 G2 GT)
    (params : BFPublicParameters G1) : List (List Char) :=
  bf_params_to_string pp params

/-- `parse_system_params` from `src/api.c` (it ignores the
`bf_params_from_string` return value; the partiality is kept explicit). -/
def parse_system_params {G1 G2 GT : Type} (pp : Provider G1 G2 GT)
    (shas : ShaFns) (lines : List (List Char)) :
    Option (BFPublicParameters G1) :=
  bf_params_from_string pp shas lines

/-- `copy_params` from `src/api.c`: format, then re-parse. -/
def copy_params {G1 G2 GT : Type} (pp : Provider G1 G2 GT) (shas : ShaFns)
    (params : BFPublicParameters G1) : Option (BFPublicParameters G1) :=
  parse_system_params pp shas (format_system_params pp params)

/-- `format_private_key` from `src/api.c` (the `element_snprint` sizing dance
produces exactly the textual form of the element). -/
def format_private_key {G1 G2 GT : Type} (pp : Provider G1 G2 GT)
    (k : G2) : List Char :=
  pp.g2ToStr k

/-- `parse_private_key` from `src/api.c`: `element_init_G2` then
`element_set_str(·, key_string, 10)`, whose return value is ignored -- on
failure the caller sees the freshly initialized element. -/
def parse_private_key {G1 G2 GT : Type} (pp : Provider G1 G2 GT)
    (key_string : List Char) : G2 :=
  (pp.g2FromStr key_string).getD pp.g2init

/-- `decrypt_ibe` from `src/api.c`: parse the ciphertext bytes (returning
`NULL` on failure), `calloc` a `msg.length`-byte output buffer, run
`bf_decrypt` -- whose boolean return value the C discards -- and return the
buffer. -/
def decrypt_ibe {G1 G2 GT : Type} (pp : Provider G1 G2 GT)
    (params : BFPublicParameters G1) (key : G2) (ciphertext : List Nat) :
    Option (List Nat) :=
  match bf_message_from_bytes pp params ciphertext with
  | none => none
  | some msg =>
    let msg_bytes := (bf_decrypt pp params key msg
      (List.replicate msg.length 0)).2
    some msg_bytes

/-- `add_public` from `src/api.c`: `NULL` when the levels or the moduli
differ, else a `copy_params` copy of the first argument with `P_pub`
replaced by the group sum and the pairing precomputation rebuilt from it. -/
def add_public {G1 G2 GT : Type} (pp : Provider G1 G2 GT) (shas : ShaFns)
    (params1 params2 : BFPublicParameters G1) :
    Option (BFPublicParameters G1) :=
  if params1.security.level ≠ params2.security.level ∨ params1.q ≠ params2.q
  then none
  else
    match copy_params pp shas params1 with
    | none => none
    | some pr =>
      let newPub := pp.g1add params1.P_pub params2.P_pub
      some { pr with P_pub := newPub, P_pub_precomp := newPub }

/-- `add_secret` from `src/api.c`: both strings go through
`parse_private_key` (G2 elements, radix 10), are combined with
`element_add` in G2, and the sum is re-encoded with `format_private_key`.
The `params` argument is used only to initialize elements; in particular
`params.q` is never consulted. -/
def add_secret {G1 G2 GT : Type} (pp : Provider G1 G2 GT)
    (secret1 secret2 : List Char) : List Char :=
  format_private_key pp
    (pp.g2add (parse_private_key pp secret1) (parse_private_key pp secret2))

/-! ### Definitions that follow the spec's words (comparison targets) -/

/-- Follows the spec's words, block generator of RFC 5091 HashBytes
(spec §4.2): starting from `h = 0^hlen`, each round updates `h ← H(h)`,
`r ← H(h ∥ K)` and emits the block `r`; the blocks are concatenated in
order, so block `i` sits at offset `i·hlen` of the output. -/
def hashBytesSpecBlocks (H : List Nat → List Nat) (K : List Nat) :
    Nat → List Nat → List Nat
  | 0, _ => []
  | n + 1, h =>
    let h2 := H h
    H (h2 ++ K) ++ hashBytesSpecBlocks H K n h2

/-- Follows the spec's words (spec §4.2, `hash_to_bytes(seed, outlen)`):
`K = H(seed)`, then concatenated blocks truncated to `outlen` bytes
("append min(hlen, remaining) bytes of r ... halting exactly when outlen
bytes have been produced"). -/
def hashBytesSpec (H : List Nat → List Nat) (hlen outlen : Nat)
    (seed : List Nat) : List Nat :=
  (hashBytesSpecBlocks H (H seed) outlen (List.replicate hlen 0)).take outlen

/-- Follows the spec's words (spec §4.5 steps 1-3): `θ = e(U, d)`,
`z = serialize(θ)`, `w = H(z) ⊕ V`, recovering `ρ`. -/
def decryptRecoveredRho {G1 G2 GT : Type} (pp : Provider G1 G2 GT)
    (params : BFPublicParameters G1) (private_key : G2)
    (message : BFMessage G1) : List Nat :=
  List.zipWith Nat.xor
    (params.security.hashfcn (pp.gtToBytes (pp.pair message.U private_key)))
    message.V

/-- Follows the spec's words (spec §4.5 step 4):
`m = hash_to_bytes(w, length) ⊕ W`, expanded into the caller's buffer. -/
def decryptRecoveredPlaintext {G1 G2 GT : Type} (pp : Provider G1 G2 GT)
    (params : BFPublicParameters G1) (private_key : G2)
    (message : BFMessage G1) (output0 : List Nat) : List Nat :=
  List.zipWith Nat.xor
    (hash_to_bytes params.security output0 message.length
      (decryptRecoveredRho pp params private_key message))
    message.W

/-- Follows the spec's words (spec §4.5 steps 5-6): `t = H(m)`,
`l = hash_to_range(w ∥ t, q)` recomputed from the recovered `ρ` and
plaintext. -/
def decryptRecomputedL {G1 G2 GT : Type} (pp : Provider G1 G2 GT)
    (params : BFPublicParameters G1) (private_key : G2)
    (message : BFMessage G1) (output0 : List Nat) : Nat :=
  hash_to_range params.security
    ((decryptRecoveredRho pp params private_key message).take
        params.security.hashlen
      ++ (params.security.hashfcn
          (decryptRecoveredPlaintext pp params private_key message
            output0)).take params.security.hashlen)
    params.q

/-- Follows the spec's words (spec §4.6, `add_secret`): parse each secret
string as an integer (via the given textual decode), compute
`(s1 + s2) mod q`, re-encode in the same textual form. -/
def addSecretIntSpec (dec : List Char → Option Nat) (enc : Nat → List Char)
    (q : Nat) (s1 s2 : List Char) : List Char :=
  enc (((dec s1).getD 0 + (dec s2).getD 0) % q)

/-! ### Concrete instantiations

Small computable instantiations of the external capability surface, used to
evaluate the development on closed inputs.  They are not cryptographic; they
only have to satisfy the documented provider contracts (digest lengths,
serialization round-trips, the pairing law `e([a]X, [b]Y) = e([b]X, Y)^a`,
which holds when scalar action, pairing and GT power are all multiplication
on `Nat`). -/

/-- Digest functions with the profile's digest lengths (only the length is
contractual; the content just has to be computable). -/
def shaTest : ShaFns where
  sha1 := fun b => List.replicate 20 ((b.foldl Nat.add 1) % 256)
  sha224 := fun b => List.replicate 28 ((b.foldl Nat.add 2) % 256)
  sha256 := fun b => List.replicate 32 ((b.foldl Nat.add 3) % 256)
  sha384 := fun b => List.replicate 48 ((b.foldl Nat.add 4) % 256)
  sha512 := fun b => List.replicate 64 ((b.foldl Nat.add 5) % 256)

/-- A provider over `Nat` where scalar multiplication, the pairing and GT
exponentiation are all `Nat` multiplication and the textual encodings are
unary (hence trivially invertible). -/
def provNat : Provider Nat Nat Nat where
  g1add := Nat.add
  g1mul := Nat.mul
  g2add := Nat.add
  g2mul := Nat.mul
  g1eqb := fun a b => a == b
  pair := Nat.mul
  ppApply := Nat.mul
  gtpow := Nat.mul
  gtToBytes := fun t => [t % 256]
  g1ToBytes := fun x => [x % 256]
  g1FromBytes := leToNat
  g1len := 1
  fromHash := fun b => b.foldl Nat.add 0
  g1ToStr := fun x => List.replicate x 'p'
  g1FromStr := fun s => some s.length
  g2ToStr := fun x => List.replicate x 'k'
  g2FromStr := fun s => some s.length
  g2init := 0
  natEnc10 := fun n => List.replicate n 'd'
  natDec10 := fun s => some s.length
  natEnc36 := fun n => List.replicate n 'q'
  natDec36 := fun s => some s.length
  curveOk := fun _ => true

/-- A provider whose G1 is a single byte, so the fixed-width
`element_to_bytes`/`element_from_bytes` pair is exactly invertible. -/
def provByte : Provider (Fin 256) Nat Nat where
  g1add := fun a b => a + b
  g1mul := fun a n => ⟨a.val * n % 256, Nat.mod_lt _ (by omega)⟩
  g2add := Nat.add
  g2mul := Nat.mul
  g1eqb := fun a b => a == b
  pair := fun a b => a.val * b
  ppApply := fun a b => a.val * b
  gtpow := Nat.mul
  gtToBytes := fun t => [t % 256]
  g1ToBytes := fun x => [x.val]
  g1FromBytes := fun b => ⟨b.headD 0 % 256, Nat.mod_lt _ (by omega)⟩
  g1len := 1
  fromHash := fun b => b.foldl Nat.add 0
  g1ToStr := fun x => List.replicate x.val 'p'
  g1FromStr := fun s => some ⟨s.length % 256, Nat.mod_lt _ (by omega)⟩
  g2ToStr := fun x => List.replicate x 'k'
  g2FromStr := fun s => some s.length
  g2init := 0
  natEnc10 := fun n => List.replicate n 'd'
  natDec10 := fun s => some s.length
  natEnc36 := fun n => List.replicate n 'q'
  natDec36 := fun s => some s.length
  curveOk := fun _ => true

/-- The level-1 security record `setup_security shaTest 1` produces. -/
def cSec1 : BFSecurityLevel :=
  { level := 1, n_p := 512, n_q := 160, hashlen := 20,
    hashfcn := shaTest.sha1 }

/-- Concrete parameters at level 1 with `P_pub = [3]·P`. -/
def cParams1 : BFPublicParameters Nat :=
  { security := cSec1, curve := [['c']], q := 7, P := 2, P_pub := 6,
    P_pub_precomp := 6 }

/-- A tiny security record (digest length 2) for fast evaluation of the
hash-expansion behaviour. -/
def cSec2 : BFSecurityLevel :=
  { level := 9, n_p := 0, n_q := 0, hashlen := 2,
    hashfcn := fun b => List.replicate 2 ((b.foldl Nat.add 0 + 1) % 256) }

/-- Concrete parameters over `cSec2` with `P_pub = [3]·P`. -/
def cParams2 : BFPublicParameters Nat :=
  { security := cSec2, curve := [['c']], q := 5, P := 2, P_pub := 6,
    P_pub_precomp := 6 }

/-- A digest of length 1 over bytes, for closed evaluations of
`hash_to_bytes` against the RFC construction. -/
def hashOne (b : List Nat) : List Nat :=
  [(b.foldl Nat.add 0 + b.length) % 256]

/-- A security record carrying `hashOne` (digest length 1). -/
def cSecOne : BFSecurityLevel :=
  { level := 7, n_p := 0, n_q := 0, hashlen := 1, hashfcn := hashOne }

/-- A security record with digest length 1 whose level is 3, used to build
ciphertext bytes that `bf_message_from_bytes` accepts. -/
def cSecLvl3 : BFSecurityLevel :=
  { level := 3, n_p := 0, n_q := 0, hashlen := 1, hashfcn := hashOne }

/-- Parameters whose base point `P` is `0`, so `[l]·P = 0` and the FO check
of `bf_decrypt` fails against any nonzero `U`. -/
def cParamsZeroP : BFPublicParameters Nat :=
  { security := cSecLvl3, curve := [['c']], q := 5, P := 0, P_pub := 0,
    P_pub_precomp := 0 }

/-- Concrete parameters over the byte provider. -/
def cParamsByte : BFPublicParameters (Fin 256) :=
  { security := cSecOne, curve := [['c']], q := 5, P := 2, P_pub := 6,
    P_pub_precomp := 6 }

/-- A concrete well-formed message over the byte provider:
`|V| = hashlen cSecOne = 1` and `|W| = length = 2`. -/
def cMsgByte : BFMessage (Fin 256) :=
  { length := 2, U := 3, V := [7], W := [8, 9] }

/-- A second parameter record sharing `cParams1`'s level and modulus but
with a different master public point. -/
def cParams1b : BFPublicParameters Nat :=
  { security := cSec1, curve := [['d']], q := 7, P := 2, P_pub := 10,
    P_pub_precomp := 10 }

/-! ### Supporting lemmas -/

lemma writeBytes_length (buf src : List Nat) (off : Nat)
    (h : off + src.length ≤ buf.length) :
    (writeBytes buf off src).length = buf.length := by
  simp [writeBytes]
  omega

lemma getD_drop_eq (l : List Nat) (k p : Nat) (h : k ≤ p) :
    (l.drop k).getD (p - k) 0 = l.getD p 0 := by
  by_cases hp : p < l.length
  · rw [List.getD_eq_getElem _ _ (by simp; omega),
      List.getD_eq_getElem _ _ hp, List.getElem_drop]
    congr 1
    omega
  · rw [List.getD_eq_default _ _ (by simp; omega),
      List.getD_eq_default _ _ (by omega)]

lemma writeBytes_drop (buf src : List Nat) (off : Nat)
    (hin : off + src.length ≤ buf.length) :
    (writeBytes buf off src).drop (off + src.length) =
      buf.drop (off + src.length) := by
  have hoff : off ≤ buf.length := by omega
  have h1 : (buf.take off ++ src).length = off + src.length := by
    simp
    omega
  rw [writeBytes, ← h1, List.drop_left]

lemma writeBytes_getD_ge (buf src : List Nat) (off p : Nat)
    (hin : off + src.length ≤ buf.length) (hp : off + src.length ≤ p) :
    (writeBytes buf off src).getD p 0 = buf.getD p 0 := by
  rw [← getD_drop_eq (writeBytes buf off src) (off + src.length) p hp,
    ← getD_drop_eq buf (off + src.length) p hp,
    writeBytes_drop buf src off hin]

lemma htb_loop_zero (H : List Nat → List Nat) (hlen : Nat) (K : List Nat)
    (fuel cop : Nat) (h buf : List Nat) :
    htb_loop H hlen K fuel 0 cop h buf = buf := by
  cases fuel <;> rfl

lemma htb_loop_length (H : List Nat → List Nat) (hlen : Nat) (K : List Nat) :
    ∀ fuel rem cop (h buf : List Nat), cop + rem ≤ buf.length →
      (htb_loop H hlen K fuel rem cop h buf).length = buf.length := by
  intro fuel
  induction fuel with
  | zero => intro rem cop h buf _; rfl
  | succ n ih =>
    intro rem cop h buf hle
    match rem with
    | 0 => rfl
    | r + 1 =>
      rw [htb_loop]
      split
      · have hsrc : ((H ((H (h.take hlen)).take hlen ++ K.take hlen)).take
            hlen).length ≤ hlen := by
          simp
        have hwin : cop + ((H ((H (h.take hlen)).take hlen ++
            K.take hlen)).take hlen).length ≤ buf.length := by omega
        rw [ih _ _ _ _ (by rw [writeBytes_length _ _ _ hwin]; omega)]
        exact writeBytes_length _ _ _ hwin
      · have hsrc : ((H ((H (h.take hlen)).take hlen ++ K.take hlen)).take
            (r + 1)).length ≤ r + 1 := by
          simp
        have hwin : 0 + ((H ((H (h.take hlen)).take hlen ++
            K.take hlen)).take (r + 1)).length ≤ buf.length := by omega
        rw [ih _ _ _ _ (by rw [writeBytes_length _ _ _ hwin]; omega)]
        exact writeBytes_length _ _ _ hwin
      omega

lemma hash_to_bytes_length (sec : BFSecurityLevel) (buf : List Nat)
    (outlen : Nat) (seed : List Nat) (h : outlen ≤ buf.length) :
    (hash_to_bytes sec buf outlen seed).length = buf.length :=
  htb_loop_length _ _ _ _ _ _ _ _ (by omega)

lemma zipWith_xor_cancel (a b : List Nat) (h : a.length = b.length) :
    List.zipWith Nat.xor a (List.zipWith Nat.xor a b) = b := by
  induction a generalizing b with
  | nil =>
    cases b with
    | nil => rfl
    | cons y ys => simp at h
  | cons x xs ih =>
    cases b with
    | nil => simp at h
    | cons y ys =>
      simp only [List.zipWith_cons_cons, List.cons.injEq]
      refine ⟨?_, ih ys (by simpa using h)⟩
      have hx : x ^^^ (x ^^^ y) = y := by
        rw [← Nat.xor_assoc, Nat.xor_self, Nat.zero_xor]
      exact hx

lemma zipWith_getD (f : Nat → Nat → Nat) (a b : List Nat) (i : Nat)
    (ha : i < a.length) (hb : i < b.length) :
    (List.zipWith f a b).getD i 0 = f (a.getD i 0) (b.getD i 0) := by
  rw [List.getD_eq_getElem _ _ (by simp; omega),
    List.getD_eq_getElem _ _ ha, List.getD_eq_getElem _ _ hb,
    List.getElem_zipWith]

lemma getD_replicate (n i : Nat) :
    (List.replicate n 0).getD i 0 = 0 := by
  induction n generalizing i with
  | zero => cases i <;> rfl
  | succ m ih =>
    match i with
    | 0 => rfl
    | j + 1 => exact ih j

/-- Bytes of the output buffer at or beyond offset `cop + t·hlen`, where `t`
counts the full blocks still to be written, are never modified by the
`hash_to_bytes` loop: full blocks land strictly below that offset and the
final block is copied to offset 0. -/
lemma htb_loop_getD_tail (H : List Nat → List Nat) (hlen : Nat)
    (K : List Nat) :
    ∀ fuel rem cop (h buf : List Nat) t p,
      t * hlen < rem → rem ≤ t * hlen + hlen →
      (hlen < rem ∨ rem ≤ cop) →
      cop + rem ≤ buf.length →
      cop + t * hlen ≤ p →
      (htb_loop H hlen K fuel rem cop h buf).getD p 0 = buf.getD p 0 := by
  intro fuel
  induction fuel with
  | zero => intro rem cop h buf t p _ _ _ _ _; rfl
  | succ n ih =>
    intro rem cop h buf t p h1 h2 h3 h4 h5
    match rem with
    | 0 => exact absurd h1 (Nat.not_lt_zero _)
    | r + 1 =>
      rw [htb_loop]
      split
      · -- full block: written at [cop, cop + hlen), below cop + t·hlen
        rename_i hlt
        have ht : 1 ≤ t := by
          rcases Nat.eq_zero_or_pos t with h0 | h0
          · subst h0; omega
          · exact h0
        have hth : hlen ≤ t * hlen := Nat.le_mul_of_pos_left hlen ht
        have htm : (t - 1) * hlen = t * hlen - hlen := by
          rw [Nat.sub_one_mul]
        have hsrc : ((H ((H (h.take hlen)).take hlen ++ K.take hlen)).take
            hlen).length ≤ hlen := by simp
        have hwin : cop + ((H ((H (h.take hlen)).take hlen ++
            K.take hlen)).take hlen).length ≤ buf.length := by omega
        rw [ih _ _ _ _ (t - 1) p (by omega) (by omega) (by omega)
            (by rw [writeBytes_length _ _ _ hwin]; omega) (by omega)]
        exact writeBytes_getD_ge _ _ _ _ hwin (by omega)
      · -- final block: written at [0, rem), and rem ≤ cop ≤ p
        rename_i hge
        have hcop : r + 1 ≤ cop := by
          rcases h3 with h3 | h3
          · omega
          · exact h3
        have hsrc : ((H ((H (h.take hlen)).take hlen ++ K.take hlen)).take
            (r + 1)).length ≤ r + 1 := by simp
        have hwin : 0 + ((H ((H (h.take hlen)).take hlen ++
            K.take hlen)).take (r + 1)).length ≤ buf.length := by omega
        rw [htb_loop_zero]
        exact writeBytes_getD_ge _ _ _ _ hwin (by omega)
      omega

/-- Shared round-trip argument: decrypting an honest encryption under the
matching extracted key recovers the plaintext and passes the FO check,
provided the pairing is bilinear in the sense of the provider contract and
the output buffer starts zeroed (as `decrypt_ibe`'s `calloc` guarantees). -/
lemma bf_roundtrip_core {G1 G2 GT : Type} (pp : Provider G1 G2 GT)
    (params : BFPublicParameters G1) (s : Nat) (idb m rho : List Nat)
    (hH : ∀ x, (params.security.hashfcn x).length = params.security.hashlen)
    (hbil : ∀ X Y a b, pp.pair (pp.g1mul X a) (pp.g2mul Y b)
      = pp.gtpow (pp.pair (pp.g1mul X b) Y) a)
    (hppA : ∀ X Q, pp.ppApply X Q = pp.pair X Q)
    (heqr : ∀ X, pp.g1eqb X X = true)
    (hpub : params.P_pub = pp.g1mul params.P s)
    (hpre : params.P_pub_precomp = params.P_pub)
    (hrho : rho.length = params.security.hashlen) :
    bf_decrypt pp params (bf_generate_private_key pp params s idb)
      (bf_encrypt pp params (bf_generate_public_key pp params idb) m rho)
      (List.replicate m.length 0) = (true, m) := by
  simp only [bf_decrypt, bf_encrypt, bf_generate_private_key,
    bf_generate_public_key]
  rw [hbil, hppA, hpre, hpub]
  rw [zipWith_xor_cancel _ rho (by rw [hH, hrho])]
  rw [zipWith_xor_cancel _ m
    (by rw [hash_to_bytes_length _ _ _ _ (by simp), List.length_replicate])]
  rw [heqr]
  simp

/-- Bounds for `t = ceil(len/hlen) - 1`: `t·hlen < len ≤ (t+1)·hlen`. -/
lemma ceil_sub_one_bounds (len hlen : Nat) (hh : 0 < hlen) (hl : 0 < len) :
    ((len + hlen - 1) / hlen - 1) * hlen < len ∧
      len ≤ ((len + hlen - 1) / hlen - 1) * hlen + hlen := by
  have h1 : (len + hlen - 1) / hlen = (len - 1) / hlen + 1 := by
    have h2 : len + hlen - 1 = (len - 1) + hlen := by omega
    rw [h2, Nat.add_div_right _ hh]
  rw [h1, Nat.add_sub_cancel]
  have h3 : (len - 1) / hlen * hlen ≤ len - 1 := Nat.div_mul_le_self _ _
  have h4 : hlen * ((len - 1) / hlen) + (len - 1) % hlen = len - 1 :=
    Nat.div_add_mod _ _
  have h5 : (len - 1) % hlen < hlen := Nat.mod_lt _ hh
  have h6 : hlen * ((len - 1) / hlen) = (len - 1) / hlen * hlen :=
    Nat.mul_comm _ _
  rw [h6] at h4
  omega

lemma headD_drop (l : List Nat) (n : Nat) :
    (l.drop n).headD 0 = l.getD n 0 := by
  induction l generalizing n with
  | nil => cases n <;> rfl
  | cons x xs ih =>
    match n with
    | 0 => rfl
    | j + 1 => exact ih j

lemma length_natToLE (k n : Nat) : (natToLE k n).length = k := by
  induction k generalizing n with
  | zero => rfl
  | succ j ih => simp [natToLE, ih]

lemma leToNat_natToLE : ∀ k n, n < 256 ^ k → leToNat (natToLE k n) = n := by
  intro k
  induction k with
  | zero =>
    intro n h
    simp only [pow_zero, Nat.lt_one_iff] at h
    subst h
    rfl
  | succ j ih =>
    intro n h
    have hd : n / 256 < 256 ^ j := by
      rw [Nat.div_lt_iff_lt_mul (by omega)]
      calc n < 256 ^ (j + 1) := h
        _ = 256 ^ j * 256 := by rw [pow_succ]
    simp only [natToLE, leToNat]
    rw [ih (n / 256) hd]
    omega

/-! ### Claim theorems -/

/-- C1: for every security level L in 1..5, identifier, payload m with
1 ≤ |m| ≤ 1024 and any random coins ρ drawn during encryption, decrypting
(into the zeroed output buffer the facade allocates) a ciphertext produced
by encrypting m under the identifier's public key, using the identifier's
extracted private key `[s]·H1(id)`, recovers m exactly and `bf_decrypt`
reports success — given the documented provider contract (bilinear pairing,
`pairing_pp_apply` consistency, reflexive `element_cmp`) and the profile's
digest-length contract, for any `params` with `P_pub = [s]P` as `setup`
establishes. -/
theorem C1_encrypt_decrypt_roundtrip {G1 G2 GT : Type}
    (pp : Provider G1 G2 GT) (shas : ShaFns) (level : Nat)
    (sec : BFSecurityLevel) (params : BFPublicParameters G1) (s : Nat)
    (idb m rho : List Nat)
    (hlevel : 1 ≤ level ∧ level ≤ 5)
    (hsec : setup_security shas level = some sec)
    (hsecp : params.security = sec)
    (hH : ∀ x, (sec.hashfcn x).length = sec.hashlen)
    (hbil : ∀ X Y a b, pp.pair (pp.g1mul X a) (pp.g2mul Y b)
      = pp.gtpow (pp.pair (pp.g1mul X b) Y) a)
    (hppA : ∀ X Q, pp.ppApply X Q = pp.pair X Q)
    (heqr : ∀ X, pp.g1eqb X X = true)
    (hpub : params.P_pub = pp.g1mul params.P s)
    (hpre : params.P_pub_precomp = params.P_pub)
    (hrho : rho.length = sec.hashlen)
    (hm : 1 ≤ m.length ∧ m.length ≤ 1024) :
    bf_decrypt pp params (bf_generate_private_key pp params s idb)
      (bf_encrypt pp params (bf_generate_public_key pp params idb) m rho)
      (List.replicate m.length 0) = (true, m) := by
  subst hsecp
  exact bf_roundtrip_core pp params s idb m rho hH hbil hppA heqr hpub hpre
    hrho

/-- Witness for C1 at level 1, id bytes [1,2], m = [9], ρ = 20 bytes of 5,
s = 3, over the `Nat` provider. -/
theorem C1_encrypt_decrypt_roundtrip_witness :
    bf_decrypt provNat cParams1
      (bf_generate_private_key provNat cParams1 3 [1, 2])
      (bf_encrypt provNat cParams1
        (bf_generate_public_key provNat cParams1 [1, 2]) [9]
        (List.replicate 20 5))
      (List.replicate 1 0) = (true, [9]) := by
  have h := C1_encrypt_decrypt_roundtrip provNat shaTest 1 cSec1 cParams1 3
    [1, 2] [9] (List.replicate 20 5)
    (by decide) rfl rfl
    (by intro x; simp [cSec1, shaTest])
    (by intro X Y a b; show X * a * (Y * b) = X * b * Y * a; ring)
    (by intro X Q; rfl)
    (by intro X; simp [provNat])
    (by decide) rfl (by simp [cSec1]) (by decide)
  simpa using h

/-- C3 (implicit): when |m| > hlen, the ciphertext `W` produced by
`bf_encrypt` contains the plaintext tail in the clear — with
t = ceil(|m|/hlen) - 1, `W[i] = m[i]` for every i in [t·hlen, |m|) — because
the final (partial) mask block of `hash_to_bytes` is written at offset 0 of
the mask buffer instead of being appended at offset t·hlen, leaving the
zero-initialized tail of the calloc'd buffer as the mask; and the round trip
nevertheless succeeds because `bf_decrypt` applies the same defective
mask. -/
theorem C3_ciphertext_tail_in_clear {G1 G2 GT : Type}
    (pp : Provider G1 G2 GT)
    (params : BFPublicParameters G1) (s : Nat) (idb m rho : List Nat)
    (hH : ∀ x, (params.security.hashfcn x).length = params.security.hashlen)
    (hbil : ∀ X Y a b, pp.pair (pp.g1mul X a) (pp.g2mul Y b)
      = pp.gtpow (pp.pair (pp.g1mul X b) Y) a)
    (hppA : ∀ X Q, pp.ppApply X Q = pp.pair X Q)
    (heqr : ∀ X, pp.g1eqb X X = true)
    (hpub : params.P_pub = pp.g1mul params.P s)
    (hpre : params.P_pub_precomp = params.P_pub)
    (hrho : rho.length = params.security.hashlen)
    (hpos : 0 < params.security.hashlen)
    (hlong : params.security.hashlen < m.length) :
    (∀ i,
      ((m.length + params.security.hashlen - 1) / params.security.hashlen
          - 1) * params.security.hashlen ≤ i →
      i < m.length →
      (bf_encrypt pp params (bf_generate_public_key pp params idb) m
        rho).W.getD i 0 = m.getD i 0)
    ∧ bf_decrypt pp params (bf_generate_private_key pp params s idb)
        (bf_encrypt pp params (bf_generate_public_key pp params idb) m rho)
        (List.replicate m.length 0) = (true, m) := by
  constructor
  · intro i hi1 hi2
    have hWeq : (bf_encrypt pp params
        (bf_generate_public_key pp params idb) m rho).W
        = List.zipWith Nat.xor
          (hash_to_bytes params.security (List.replicate m.length 0)
            m.length rho) m := rfl
    rw [hWeq]
    have hml : 0 < m.length := by omega
    obtain ⟨hb1, hb2⟩ :=
      ceil_sub_one_bounds m.length params.security.hashlen hpos hml
    have hW0len : (hash_to_bytes params.security
        (List.replicate m.length 0) m.length rho).length = m.length := by
      rw [hash_to_bytes_length _ _ _ _ (by simp), List.length_replicate]
    rw [zipWith_getD _ _ _ _ (by omega) hi2]
    have hW0 : (hash_to_bytes params.security (List.replicate m.length 0)
        m.length rho).getD i 0 = 0 := by
      simp only [hash_to_bytes]
      rw [htb_loop_getD_tail _ _ _ _ _ _ _ _
          ((m.length + params.security.hashlen - 1) /
            params.security.hashlen - 1) i
          hb1 (by omega) (Or.inl hlong) (by simp) (by omega)]
      exact getD_replicate _ _
    rw [hW0]
    exact Nat.zero_xor _
  · exact bf_roundtrip_core pp params s idb m rho hH hbil hppA heqr hpub
      hpre hrho

/-- Witness for C3 over `cParams2` (hlen = 2): m = [1,2,3], so
t = ceil(3/2) - 1 = 1 and byte 2 of W equals byte 2 of m; the round trip
still succeeds. -/
theorem C3_ciphertext_tail_in_clear_witness :
    (bf_encrypt provNat cParams2
      (bf_generate_public_key provNat cParams2 [1, 2]) [1, 2, 3]
      [4, 5]).W.getD 2 0 = 3
    ∧ bf_decrypt provNat cParams2
        (bf_generate_private_key provNat cParams2 3 [1, 2])
        (bf_encrypt provNat cParams2
          (bf_generate_public_key provNat cParams2 [1, 2]) [1, 2, 3] [4, 5])
        (List.replicate 3 0) = (true, [1, 2, 3]) := by
  have h := C3_ciphertext_tail_in_clear provNat cParams2 3 [1, 2] [1, 2, 3]
    [4, 5]
    (by intro x; simp [cParams2, cSec2])
    (by intro X Y a b; show X * a * (Y * b) = X * b * Y * a; ring)
    (by intro X Q; rfl)
    (by intro X; simp [provNat])
    (by decide) rfl (by decide) (by decide) (by decide)
  refine ⟨?_, by simpa using h.2⟩
  have h1 := h.1 2 (by decide) (by decide)
  simpa using h1

/-- C4: `bf_decrypt` recomputes `l` from the recovered ρ and plaintext and
compares `[l]·P` to `U`: it succeeds with the recovered plaintext in the
output buffer exactly when they are equal, and otherwise fails with the
entire `length`-byte output buffer zeroed; there is no other failure
case. -/
theorem C4_decrypt_validation {G1 G2 GT : Type} (pp : Provider G1 G2 GT)
    (params : BFPublicParameters G1) (private_key : G2)
    (message : BFMessage G1) (output0 : List Nat) :
    bf_decrypt pp params private_key message output0 =
      if pp.g1eqb message.U
          (pp.g1mul params.P
            (decryptRecomputedL pp params private_key message output0))
          = true then
        (true, decryptRecoveredPlaintext pp params private_key message
          output0)
      else (false, List.replicate message.length 0) := rfl

/-- C10 (implicit): `bf_message_from_bytes` succeeds exactly when the single
security-level byte of the input equals `params.security.level`; it performs
no other validation, reading the message length from the first
`sizeof(size_t)` bytes in host byte order whatever the input claims, then
copying `hash_len` bytes into V and `length` bytes into W at fixed
offsets. -/
theorem C10_from_bytes_characterization {G1 G2 GT : Type}
    (pp : Provider G1 G2 GT) (params : BFPublicParameters G1)
    (b : List Nat) :
    bf_message_from_bytes pp params b =
      if b.getD size_size 0 = params.security.level then
        some { length := leToNat (b.take size_size),
               U := pp.g1FromBytes ((b.drop (size_size + 1)).take pp.g1len),
               V := (b.drop (size_size + 1 + pp.g1len)).take
                 params.security.hashlen,
               W := (b.drop (size_size + 1 + pp.g1len +
                   params.security.hashlen)).take
                 (leToNat (b.take size_size)) }
      else none := by
  have e1 : (b.drop size_size).drop 1 = b.drop (size_size + 1) := by
    rw [List.drop_drop, Nat.add_comm]
  have e2 : (b.drop (size_size + 1)).drop pp.g1len
      = b.drop (size_size + 1 + pp.g1len) := by
    rw [List.drop_drop, Nat.add_comm]
  have e3 : (b.drop (size_size + 1 + pp.g1len)).drop params.security.hashlen
      = b.drop (size_size + 1 + pp.g1len + params.security.hashlen) := by
    rw [List.drop_drop, Nat.add_comm]
  simp only [bf_message_from_bytes, headD_drop, e1, e2, e3]

/-- C9: for every byte string b and positive modulus q, `hash_to_range`
returns an integer in [0, q-1] computed by exactly two RFC 5091 accumulator
rounds: with M = 256^hlen and h_0 = 0^hlen, h_{i+1} = H(h_i ∥ b),
a_{i+1} = big-endian(h_{i+1}), and the result is (a_1·M + a_2) mod q. -/
theorem C9_hash_to_range_two_rounds (sec : BFSecurityLevel) (b : List Nat)
    (q : Nat)
    (hH : ∀ x, (sec.hashfcn x).length = sec.hashlen)
    (hq : 0 < q) :
    hash_to_range sec b q < q ∧
    hash_to_range sec b q =
      (beInt (sec.hashfcn (List.replicate sec.hashlen 0 ++ b))
          * 256 ^ sec.hashlen
        + beInt (sec.hashfcn
            (sec.hashfcn (List.replicate sec.hashlen 0 ++ b) ++ b))) % q := by
  have ht : ∀ x : List Nat,
      (sec.hashfcn x).take sec.hashlen = sec.hashfcn x := fun x => by
    rw [← hH x]
    exact List.take_length _
  constructor
  · exact Nat.mod_lt _ hq
  · simp only [hash_to_range, htr_loop, List.take_replicate,
      Nat.min_self, ht]
    ring_nf

/-- Witness for C9 at digest length 1, b = [2], q = 5. -/
theorem C9_hash_to_range_two_rounds_witness :
    hash_to_range cSecOne [2] 5 < 5 ∧
    hash_to_range cSecOne [2] 5 =
      (beInt (cSecOne.hashfcn (List.replicate cSecOne.hashlen 0 ++ [2]))
          * 256 ^ cSecOne.hashlen
        + beInt (cSecOne.hashfcn
            (cSecOne.hashfcn (List.replicate cSecOne.hashlen 0 ++ [2])
              ++ [2]))) % 5 :=
  C9_hash_to_range_two_rounds cSecOne [2] 5
    (by intro x; simp [cSecOne, hashOne]) (by decide)

/-- Counterexample to C2: at digest length 1 with a two-byte output,
`hash_to_bytes` does not equal the RFC 5091 HashBytes construction (the
claim asserts they agree for every seed and outlen ≥ 1): the second block is
written over offset 0 instead of being appended, so the outputs differ at
seed [0], outlen 2. -/
theorem C2_hash_to_bytes_counterexample :
    hash_to_bytes cSecOne (List.replicate 2 0) 2 [0]
      ≠ hashBytesSpec cSecOne.hashfcn cSecOne.hashlen 2 [0] := by
  decide

/-- C2 as amended: `hash_to_bytes(seed, outlen)` equals the RFC 5091
HashBytes construction whenever `outlen ≤ hlen` (a single, possibly partial,
block); for longer outputs the final partial block is written at offset 0
instead of offset t·hlen, so the agreement stops there. -/
theorem C2_hash_to_bytes_rfc_single_block (sec : BFSecurityLevel)
    (seed buf : List Nat) (outlen : Nat)
    (hH : ∀ x, (sec.hashfcn x).length = sec.hashlen)
    (hle : outlen ≤ sec.hashlen)
    (hbuf : buf.length = outlen) :
    hash_to_bytes sec buf outlen seed
      = hashBytesSpec sec.hashfcn sec.hashlen outlen seed := by
  have ht : ∀ x : List Nat,
      (sec.hashfcn x).take sec.hashlen = sec.hashfcn x := fun x => by
    rw [← hH x]
    exact List.take_length _
  match outlen, hbuf with
  | 0, hbuf =>
    have hb : buf = [] := List.eq_nil_of_length_eq_zero hbuf
    subst hb
    rfl
  | n + 1, hbuf =>
    simp only [hash_to_bytes, hashBytesSpec, htb_loop, hashBytesSpecBlocks,
      List.take_replicate, Nat.min_self, ht]
    rw [if_neg (by omega), htb_loop_zero, writeBytes]
    have hr : (sec.hashfcn ((sec.hashfcn (List.replicate sec.hashlen 0))
        ++ sec.hashfcn seed)).length = sec.hashlen := hH _
    rw [List.take_append_of_le_length (by omega)]
    simp only [List.take_zero, List.nil_append]
    rw [List.length_take, hr, Nat.min_eq_left hle, Nat.zero_add,
      List.drop_eq_nil_of_le (by omega), List.append_nil]

/-- Witness for the amended C2 at digest length 1, outlen = 1, seed [3]. -/
theorem C2_hash_to_bytes_rfc_single_block_witness :
    hash_to_bytes cSecOne (List.replicate 1 0) 1 [3]
      = hashBytesSpec cSecOne.hashfcn cSecOne.hashlen 1 [3] :=
  C2_hash_to_bytes_rfc_single_block cSecOne [3] (List.replicate 1 0) 1
    (by intro x; simp [cSecOne, hashOne]) (by decide) (by decide)

/-- C8: for every message record with `|V| = hash_len` and `|W| = length`
(and a length representable in `size_t`), decoding the byte serialization
with the same `params` succeeds and recovers the record bit-identically,
given the provider's fixed-width G1 byte-serialization contract. -/
theorem C8_message_bytes_roundtrip {G1 G2 GT : Type}
    (pp : Provider G1 G2 GT) (params : BFPublicParameters G1)
    (msg : BFMessage G1)
    (hV : msg.V.length = params.security.hashlen)
    (hW : msg.W.length = msg.length)
    (hsz : msg.length < 256 ^ size_size)
    (hg1l : ∀ x, (pp.g1ToBytes x).length = pp.g1len)
    (hg1rt : ∀ x, pp.g1FromBytes (pp.g1ToBytes x) = x) :
    bf_message_from_bytes pp params (bf_message_to_bytes pp params msg)
      = some msg := by
  have hVt : msg.V.take params.security.hashlen = msg.V := by
    rw [← hV]
    exact List.take_length _
  have hWt : msg.W.take msg.length = msg.W := by
    rw [← hW]
    exact List.take_length _
  have htake8 : (natToLE size_size msg.length
      ++ (params.security.level :: pp.g1ToBytes msg.U
        ++ (msg.V ++ msg.W))).take size_size = natToLE size_size msg.length :=
    List.take_left' (length_natToLE _ _)
  have hdrop8 : (natToLE size_size msg.length
      ++ (params.security.level :: pp.g1ToBytes msg.U
        ++ (msg.V ++ msg.W))).drop size_size
      = params.security.level :: pp.g1ToBytes msg.U ++ (msg.V ++ msg.W) :=
    List.drop_left' (length_natToLE _ _)
  simp only [bf_message_to_bytes, bf_message_from_bytes, hVt, hWt,
    List.append_assoc, htake8, hdrop8]
  rw [show (params.security.level :: pp.g1ToBytes msg.U
      ++ (msg.V ++ msg.W)).headD 0 = params.security.level from rfl]
  rw [if_pos rfl]
  rw [show List.drop 1 (params.security.level :: pp.g1ToBytes msg.U
      ++ (msg.V ++ msg.W)) = pp.g1ToBytes msg.U ++ (msg.V ++ msg.W) from rfl]
  rw [List.take_left' (hg1l _), List.drop_left' (hg1l _), hg1rt,
    leToNat_natToLE _ _ hsz, List.take_left' hV, List.drop_left' hV, hWt]

/-- Witness for C8 over the byte provider at a concrete message. -/
theorem C8_message_bytes_roundtrip_witness :
    bf_message_from_bytes provByte cParamsByte
      (bf_message_to_bytes provByte cParamsByte cMsgByte) = some cMsgByte := by
  have h := C8_message_bytes_roundtrip provByte cParamsByte cMsgByte
    (by decide) (by decide) (by decide)
    (by intro x; simp [provByte])
    (by
      intro x
      simp only [provByte, List.headD_cons]
      exact Fin.ext (Nat.mod_eq_of_lt x.isLt))
  exact h

/-- Under the serialization round-trip contracts (provider element text,
`%u` and base-36 integer text, curve descriptor) and for a well-formed
record (security record as `setup_security` built it, non-empty parseable
curve text), `copy_params` reproduces the record, except that the pairing
precomputation is rebuilt from the parsed `P_pub`. -/
lemma copy_params_eq {G1 G2 GT : Type} (pp : Provider G1 G2 GT)
    (shas : ShaFns) (params : BFPublicParameters G1)
    (hsec : setup_security shas params.security.level
      = some params.security)
    (hg1 : ∀ x, pp.g1FromStr (pp.g1ToStr x) = some x)
    (h10 : ∀ n, pp.natDec10 (pp.natEnc10 n) = some n)
    (h36 : ∀ n, pp.natDec36 (pp.natEnc36 n) = some n)
    (hcv : params.curve ≠ [] ∧ pp.curveOk params.curve = true) :
    copy_params pp shas params
      = some { params with P_pub_precomp := params.P_pub } := by
  have h9 : secHeader.length = 9 := rfl
  simp only [copy_params, parse_system_params, format_system_params,
    bf_params_to_string, bf_params_from_string, bf_params_to_file,
    bf_params_from_file]
  rw [List.take_left' h9, List.drop_left' h9, if_pos rfl, h10, h36]
  dsimp only
  rw [if_pos hcv, hg1, hg1]
  dsimp only
  rw [hsec]
  rfl

/-- C7: `add_public` fails (returns the `ShardMismatch` `NULL`) exactly when
the two records' security levels or subgroup orders differ; when it succeeds
it returns a fresh copy of `params_A` whose `P_pub` is the group sum
`P_pub_A + P_pub_B`, with the pairing precomputation freshly rebuilt from
that sum and all other fields taken from `params_A` (both inputs are left
unchanged: the embedding is pure, mirroring that the C only reads them). -/
theorem C7_add_public_characterization {G1 G2 GT : Type}
    (pp : Provider G1 G2 GT) (shas : ShaFns)
    (params1 params2 : BFPublicParameters G1)
    (hsec : setup_security shas params1.security.level
      = some params1.security)
    (hg1 : ∀ x, pp.g1FromStr (pp.g1ToStr x) = some x)
    (h10 : ∀ n, pp.natDec10 (pp.natEnc10 n) = some n)
    (h36 : ∀ n, pp.natDec36 (pp.natEnc36 n) = some n)
    (hcv : params1.curve ≠ [] ∧ pp.curveOk params1.curve = true) :
    add_public pp shas params1 params2 =
      if params1.security.level = params2.security.level
          ∧ params1.q = params2.q then
        some { params1 with
          P_pub := pp.g1add params1.P_pub params2.P_pub,
          P_pub_precomp := pp.g1add params1.P_pub params2.P_pub }
      else none := by
  rw [add_public, copy_params_eq pp shas params1 hsec hg1 h10 h36 hcv]
  by_cases h : params1.security.level = params2.security.level
      ∧ params1.q = params2.q
  · rw [if_neg (by
      intro hc
      rcases hc with hc | hc
      · exact hc h.1
      · exact hc h.2), if_pos h]
  · rw [if_pos (by
      by_cases h1 : params1.security.level = params2.security.level
      · right
        intro h2
        exact h ⟨h1, h2⟩
      · left
        exact h1), if_neg h]

/-- Witness for C7 on two level-1 records sharing `q = 7`. -/
theorem C7_add_public_characterization_witness :
    add_public provNat shaTest cParams1 cParams1b =
      if cParams1.security.level = cParams1b.security.level
          ∧ cParams1.q = cParams1b.q then
        some { cParams1 with
          P_pub := provNat.g1add cParams1.P_pub cParams1b.P_pub,
          P_pub_precomp := provNat.g1add cParams1.P_pub cParams1b.P_pub }
      else none :=
  C7_add_public_characterization provNat shaTest cParams1 cParams1b rfl
    (by intro x; simp [provNat])
    (by intro n; simp [provNat])
    (by intro n; simp [provNat])
    ⟨by decide, rfl⟩

/-- C5 evaluation at a failing input: the ciphertext bytes parse
successfully, `bf_decrypt`'s Fujisaki-Okamoto validation fails (it returns
`false` and zeroes the buffer), yet the facade `decrypt_ibe` — which
discards `bf_decrypt`'s return value — reports success with the zeroed
buffer instead of propagating `DecryptionInvalid`. -/
theorem C5_decrypt_ibe_swallows_invalid :
    bf_message_from_bytes provNat cParamsZeroP
        (natToLE 8 1 ++ [3] ++ [1] ++ [0] ++ [0])
      = some { length := 1, U := 1, V := [0], W := [0] }
    ∧ (bf_decrypt provNat cParamsZeroP 1
        { length := 1, U := 1, V := [0], W := [0] }
        (List.replicate 1 0)).1 = false
    ∧ decrypt_ibe provNat cParamsZeroP 1
        (natToLE 8 1 ++ [3] ++ [1] ++ [0] ++ [0])
      = some [0] := by
  refine ⟨by decide, by decide, by decide⟩

/-- Counterexample to C6: even under the reading most favourable to the
claim — a provider whose G2 is `Nat`, whose `element_add` is integer
addition and whose private-key text form is an invertible encoding of the
integer — `add_secret` differs from the spec's parse-as-integer,
add-modulo-q, re-encode operation, because the code performs G2 addition of
`parse_private_key` results and never reduces modulo `q` (for q = 7 and
secrets encoding 5 and 4 the code yields the encoding of 9, the spec
demands the encoding of 2). -/
theorem C6_add_secret_counterexample :
    add_secret provNat (List.replicate 5 'k') (List.replicate 4 'k')
      ≠ addSecretIntSpec provNat.g2FromStr provNat.g2ToStr 7
        (List.replicate 5 'k') (List.replicate 4 'k') := by
  decide

/-- C6 as amended: `add_secret` parses each secret string as a G2 element in
the private-key textual form (radix 10), computes the group sum in G2 — with
no reduction modulo `q`, which it never consults — and re-encodes it in the
same textual form; consequently the operation is commutative when G2
addition is, and associative when G2 addition is associative and the
private-key text round-trips. -/
theorem C6_add_secret_g2_sum {G1 G2 GT : Type} (pp : Provider G1 G2 GT)
    (s1 s2 s3 : List Char)
    (hcomm : ∀ a b, pp.g2add a b = pp.g2add b a)
    (hassoc : ∀ a b c, pp.g2add (pp.g2add a b) c
      = pp.g2add a (pp.g2add b c))
    (hrt : ∀ x, pp.g2FromStr (pp.g2ToStr x) = some x) :
    add_secret pp s1 s2
        = pp.g2ToStr (pp.g2add (parse_private_key pp s1)
            (parse_private_key pp s2))
      ∧ add_secret pp s1 s2 = add_secret pp s2 s1
      ∧ add_secret pp (add_secret pp s1 s2) s3
        = add_secret pp s1 (add_secret pp s2 s3) := by
  refine ⟨rfl, ?_, ?_⟩
  · simp only [add_secret, format_private_key]
    rw [hcomm]
  · simp only [add_secret, format_private_key, parse_private_key]
    rw [hrt, hrt]
    simp only [Option.getD_some]
    rw [hassoc]

/-- Witness for the amended C6 over the `Nat` provider with unary
private-key text. -/
theorem C6_add_secret_g2_sum_witness :
    add_secret provNat (List.replicate 2 'k') (List.replicate 3 'k')
        = provNat.g2ToStr (provNat.g2add
            (parse_private_key provNat (List.replicate 2 'k'))
            (parse_private_key provNat (List.replicate 3 'k')))
      ∧ add_secret provNat (List.replicate 2 'k') (List.replicate 3 'k')
        = add_secret provNat (List.replicate 3 'k') (List.replicate 2 'k')
      ∧ add_secret provNat
          (add_secret provNat (List.replicate 2 'k') (List.replicate 3 'k'))
          (List.replicate 4 'k')
        = add_secret provNat (List.replicate 2 'k')
            (add_secret provNat (List.replicate 3 'k')
              (List.replicate 4 'k')) :=
  C6_add_secret_g2_sum provNat (List.replicate 2 'k') (List.replicate 3 'k')
    (List.replicate 4 'k')
    (fun a b => Nat.add_comm a b)
    (fun a b c => Nat.add_assoc a b c)
    (by intro x; simp [provNat])
